import Mathlib

/-! Shallow embedding of the offline-first synchronization core of the
copytab repository: the Dexie-backed local store and offline service
(src/src/services/databaseService.ts, offline part), the push/pull sync
cycle (src/src/hooks/useOfflineSync.ts, syncData and syncFromServer), and
the completion cache (src/src/services/completionService.ts).

Modelling conventions:
* ISO-8601 UTC timestamp strings are modelled as natural numbers
  (milliseconds since the epoch).  The source only compares such strings,
  takes maxima, and converts them via Date.getTime; on the fixed-width
  ISO strings the source produces, lexicographic string order agrees with
  the numeric order, so nothing is lost by the abstraction.
* The content fields of a domain record (name / title / content /
  description / tags / metadata / ...) are never interpreted by the sync
  engine; they are abstracted into a single uninterpreted data field.
* A Dexie table is a list of records keyed by the id field.  Table.put is
  upsert by key; Table.update applies a change object to the record with
  the given key (a no-op when the key is absent); an update that changes
  the primary key deletes the old object and re-adds it under the new key
  (the documented Dexie semantics of Collection.modify, which
  Table.update wraps).
* JavaScript exceptions carrying a message are modelled with Except
  String; a JavaScript optional string argument is Option String, and its
  truthiness test is "is some and non-empty".
-/

namespace CopyTab

/-- Per-record sync status, the string enum 'synced' | 'pending' | 'error'
of the offline interfaces in databaseService.ts. -/
inductive SyncStatus where
  | synced
  | pending
  | error
deriving DecidableEq, Repr

/-- A locally stored domain record (OfflineProject / OfflineDocument /
OfflineStandardInfo in databaseService.ts), with the content fields
abstracted into the single field data. -/
structure OfflineRecord where
  id : String
  user_id : String
  data : String
  deleted_at : Option Nat
  sync_status : SyncStatus
  last_sync_at : Option Nat
  local_updated_at : Nat
deriving DecidableEq, Repr

/-- The three domain tables of the offline database. -/
inductive TableName where
  | documents
  | projects
  | standard_info
deriving DecidableEq, Repr

/-- The table-name component used when building a sync-queue entry id. -/
def TableName.str : TableName → String
  | .documents => "documents"
  | .projects => "projects"
  | .standard_info => "standard_info"

/-- The operation kind of a sync-queue entry. -/
inductive OpKind where
  | create
  | update
  | delete
deriving DecidableEq, Repr

/-- A sync-queue entry (SyncQueueItem in databaseService.ts).  The record
snapshot carried in the source's data field is never read back by any
modelled operation (the queue is never drained by the sync cycle), so it
is not carried here. -/
structure SyncQueueItem where
  id : String
  table : TableName
  operation : OpKind
  original_id : String
  user_id : String
  created_at : Nat
  retry_count : Nat
  last_error : Option String
deriving DecidableEq, Repr

/-- A generic cache row (OfflineCache in databaseService.ts). -/
structure OfflineCache where
  id : String
  key : String
  data : String
  expires_at : Nat
  created_at : Nat
deriving DecidableEq, Repr

/-- One domain table together with the sync queue: the state read and
written by the per-table portions of the sync engine. -/
structure LocalState where
  recs : List OfflineRecord
  queue : List SyncQueueItem
deriving DecidableEq, Repr

/-- Dexie Table.put: upsert by primary key.  If a record with the same id
exists it is replaced in place, otherwise the record is appended. -/
def putRec (t : List OfflineRecord) (r : OfflineRecord) : List OfflineRecord :=
  if t.any (fun x => x.id == r.id) then
    t.map (fun x => if x.id == r.id then r else x)
  else
    t ++ [r]

/-- Dexie Table.update key changes: modify the record with the given key.
When the key is absent nothing happens.  When the change function keeps
the primary key the record is modified in place; when it changes the
primary key the old object is deleted and the modified object re-added
(Dexie's documented Collection.modify behaviour for primary-key
changes). -/
def dexieUpdate (t : List OfflineRecord) (key : String)
    (f : OfflineRecord → OfflineRecord) : List OfflineRecord :=
  match t.find? (fun x => x.id == key) with
  | none => t
  | some r =>
    if (f r).id == key then
      t.map (fun x => if x.id == key then f r else x)
    else
      (t.filter (fun x => !(x.id == key))) ++ [f r]

/-- The record-side effect of offlineService.updateSyncStatus
(databaseService.ts lines 590-629): set sync_status to the given status
and set last_sync_at to the current time when the status is 'synced' and
to null otherwise. -/
def updateSyncStatusRecs (t : List OfflineRecord) (id : String)
    (status : SyncStatus) (now : Nat) : List OfflineRecord :=
  dexieUpdate t id (fun r =>
    { r with
      sync_status := status
      last_sync_at := if status = .synced then some now else none })

/-- The queue-side effect of offlineService.updateSyncStatus: when a
truthy (present, non-empty) error message is supplied, every queue item
whose original_id matches gets the message recorded and its retry count
incremented by one. -/
def updateSyncStatusQueue (q : List SyncQueueItem) (id : String)
    (err : Option String) : List SyncQueueItem :=
  match err with
  | some e =>
    if e = "" then q
    else
      q.map (fun item =>
        if item.original_id == id then
          { item with last_error := some e, retry_count := item.retry_count + 1 }
        else item)
  | none => q

/-- offlineService.updateSyncStatus (databaseService.ts lines 590-629),
acting on one domain table and the sync queue (the source dispatches on
the table name to three identical branches). -/
def updateSyncStatus (st : LocalState) (id : String) (status : SyncStatus)
    (err : Option String) (now : Nat) : LocalState :=
  { recs := updateSyncStatusRecs st.recs id status now
    queue := updateSyncStatusQueue st.queue id err }

/-- offlineService.getCache (databaseService.ts lines 644-653): return
the data of the first cache row with the given key whose expiry is
strictly in the future; a falsy (empty) stored value and a miss both
yield null. -/
def getCache (cache : List OfflineCache) (key : String) (now : Nat) :
    Option String :=
  match cache.find? (fun item => item.key == key && decide (now < item.expires_at)) with
  | some item => if item.data = "" then none else some item.data
  | none => none

/-- Token usage statistics of a completion response
(completionService.ts). -/
structure CompletionUsage where
  promptTokens : Nat
  completionTokens : Nat
  totalTokens : Nat
deriving DecidableEq, Repr

/-- A completion response (completionService.ts). -/
structure CompletionResponse where
  text : String
  usage : Option CompletionUsage
deriving DecidableEq, Repr

/-- An in-memory completion cache entry (interface CompletionCache in
completionService.ts). -/
structure CompletionCache where
  id : String
  prompt : String
  context : Option String
  response : String
  language : Option String
  createdAt : Nat
  expiresAt : Nat
deriving DecidableEq, Repr

/-- JavaScript Map.get on a string-keyed map, modelled as an association
list: the value of the first binding with the given key. -/
def mapGet {α : Type} (m : List (String × α)) (k : String) : Option α :=
  (m.find? (fun p => p.1 == k)).map (fun p => p.2)

/-- CompletionService.getCachedCompletion (completionService.ts lines
99-108): a cache hit is returned only while its expiry is strictly in
the future; otherwise the lookup misses. -/
def getCachedCompletion (m : List (String × CompletionCache)) (key : String)
    (now : Nat) : Option CompletionResponse :=
  match mapGet m key with
  | some cache =>
    if now < cache.expiresAt then some { text := cache.response, usage := none }
    else none
  | none => none

/-- C7: for every cache entry whose expiry timestamp is in the past, a
lookup returns a miss, both for the local store's getCache by key and for
the completion cache's getCachedCompletion, even while the entry is still
physically stored. -/
theorem C7_expired_entry_lookup_misses :
    (∀ (cache : List OfflineCache) (key : String) (now : Nat),
      (∀ item ∈ cache, item.key = key → item.expires_at < now) →
      getCache cache key now = none)
    ∧ (∀ (m : List (String × CompletionCache)) (key : String) (now : Nat)
        (c : CompletionCache),
      mapGet m key = some c → c.expiresAt < now →
      getCachedCompletion m key now = none) := by
  constructor
  · intro cache key now h
    have hfind :
        cache.find? (fun item => item.key == key && decide (now < item.expires_at))
          = none := by
      rw [List.find?_eq_none]
      intro item hmem
      simp only [Bool.and_eq_true, beq_iff_eq, decide_eq_true_eq, not_and]
      intro hk
      exact Nat.not_lt.mpr (Nat.le_of_lt (h item hmem hk))
    simp only [getCache, hfind]
  · intro m key now c hget hlt
    simp only [getCachedCompletion, hget, if_neg (Nat.not_lt.mpr (Nat.le_of_lt hlt))]

/-- Closed witness for C7: a store row and a completion entry that both
expired at time 5 are misses at time 10 while still physically present. -/
theorem C7_expired_entry_lookup_misses_witness :
    getCache [{ id := "c1", key := "k1", data := "v", expires_at := 5, created_at := 0 }] "k1" 10 = none
    ∧ getCachedCompletion
        [("k", { id := "k", prompt := "p", context := none, response := "r",
                 language := none, createdAt := 0, expiresAt := 5 })] "k" 10 = none :=
  ⟨C7_expired_entry_lookup_misses.1 _ "k1" 10 (by decide),
   C7_expired_entry_lookup_misses.2 _ "k" 10
     { id := "k", prompt := "p", context := none, response := "r",
       language := none, createdAt := 0, expiresAt := 5 }
     (by decide) (by decide)⟩

/-- The concrete single-record state used to refute claim C5: a document
that was synced at time 5 and then fails a push at time 9. -/
def c5State : LocalState :=
  { recs := [{ id := "d1", user_id := "u1", data := "body", deleted_at := none,
               sync_status := .synced, last_sync_at := some 5, local_updated_at := 3 }]
    queue := [] }

/-- C5 is refuted: a record with last_sync_at = 5 that transitions to
'error' via updateSyncStatus does not keep its previous last_sync_at; the
field is reset to null. -/
theorem C5_counterexample :
    c5State.recs.map (fun r => r.last_sync_at) = [some 5]
    ∧ (updateSyncStatus c5State "d1" .error (some "network unreachable") 9).recs.map
        (fun r => r.last_sync_at) = [none] := by decide

/-- C5 (amended): updateSyncStatus writes last_sync_at = now on a
transition to 'synced' and resets it to null on a transition to 'pending'
or 'error' (rather than leaving it unchanged); in particular a record
that fails its push has last_sync_at null afterwards, whatever its
previous value, and non-null values are only ever written together with
status 'synced'. -/
theorem C5_last_sync_at_on_transition (st : LocalState) (id : String)
    (status : SyncStatus) (err : Option String) (now : Nat) (r : OfflineRecord)
    (hex : ∃ r₀ ∈ st.recs, r₀.id = id)
    (hmem : r ∈ (updateSyncStatus st id status err now).recs) (hid : r.id = id) :
    r.last_sync_at = if status = .synced then some now else none := by
  obtain ⟨r₀, hr₀, hr₀id⟩ := hex
  have hsome : (st.recs.find? (fun x => x.id == id)).isSome := by
    rw [List.find?_isSome]
    exact ⟨r₀, hr₀, by simpa using hr₀id⟩
  obtain ⟨r', hr'⟩ := Option.isSome_iff_exists.mp hsome
  have hr'id : r'.id = id := by
    have := List.find?_some hr'
    simpa using this
  simp only [updateSyncStatus, updateSyncStatusRecs, dexieUpdate, hr'] at hmem
  rw [if_pos (by simpa using hr'id)] at hmem
  obtain ⟨x, hx, hxr⟩ := List.mem_map.mp hmem
  by_cases hxid : x.id = id
  · rw [if_pos (by simpa using hxid)] at hxr
    rw [← hxr]
  · rw [if_neg (by simpa using hxid)] at hxr
    exact absurd (hxr ▸ hid) hxid

/-- Closed witness for C5's amended theorem: the failed push of the
concrete state ends with last_sync_at = null. -/
theorem C5_last_sync_at_on_transition_witness :
    ({ id := "d1", user_id := "u1", data := "body", deleted_at := none,
       sync_status := .error, last_sync_at := none,
       local_updated_at := 3 } : OfflineRecord).last_sync_at
      = if SyncStatus.error = .synced then some 9 else none :=
  C5_last_sync_at_on_transition c5State "d1" .error (some "network unreachable") 9 _
    ⟨{ id := "d1", user_id := "u1", data := "body", deleted_at := none,
       sync_status := .synced, last_sync_at := some 5, local_updated_at := 3 },
      by decide, rfl⟩
    (by decide) rfl

/-- The full offline database (class OfflineDatabase in
databaseService.ts), as far as the statistics and deletion operations
read it. -/
structure OfflineStore where
  documents : List OfflineRecord
  projects : List OfflineRecord
  standard_info : List OfflineRecord
  sync_queue : List SyncQueueItem
deriving DecidableEq, Repr

/-- Per-table counters of getSyncStats. -/
structure TableStats where
  total : Nat
  synced : Nat
  pending : Nat
  error : Nat
deriving DecidableEq, Repr

/-- The aggregate returned by offlineService.getSyncStats. -/
structure SyncStats where
  documents : TableStats
  projects : TableStats
  standardInfo : TableStats
  syncQueue : Nat
  lastSyncAt : Option Nat
deriving DecidableEq, Repr

/-- The user-scoped table read (getUserOfflineDocuments /
getUserOfflineProjects / getUserOfflineStandardInfo): the records whose
user_id equals the given user. -/
def userRecords (t : List OfflineRecord) (uid : String) : List OfflineRecord :=
  t.filter (fun r => r.user_id == uid)

/-- getPendingSyncItems: the queue entries of the given user. -/
def userQueueItems (q : List SyncQueueItem) (uid : String) : List SyncQueueItem :=
  q.filter (fun item => item.user_id == uid)

/-- The total / synced / pending / error counters getSyncStats computes
for one table. -/
def tableStats (l : List OfflineRecord) : TableStats :=
  { total := l.length
    synced := (l.filter (fun r => decide (r.sync_status = SyncStatus.synced))).length
    pending := (l.filter (fun r => decide (r.sync_status = SyncStatus.pending))).length
    error := (l.filter (fun r => decide (r.sync_status = SyncStatus.error))).length }

/-- offlineService.getSyncStats (databaseService.ts lines 676-704).  Note
that lastSyncAt is computed from the documents list alone: null when the
user has no documents, otherwise the maximum over the documents of
Date(last_sync_at or 0).getTime(), here the maximum of last_sync_at with
null read as the epoch 0 (Math.max over a non-empty list of naturals,
written as a fold from 0). -/
def getSyncStats (st : OfflineStore) (uid : String) : SyncStats :=
  let documents := userRecords st.documents uid
  let projects := userRecords st.projects uid
  let standardInfo := userRecords st.standard_info uid
  let syncQueue := userQueueItems st.sync_queue uid
  { documents := tableStats documents
    projects := tableStats projects
    standardInfo := tableStats standardInfo
    syncQueue := syncQueue.length
    lastSyncAt :=
      if documents.length > 0 then
        some ((documents.map (fun d => d.last_sync_at.getD 0)).foldl max 0)
      else none }

/-- Modelled from the spec, as a refinement comparator only (the source
computes something else): the most recent last_sync_at across the pushed
domain tables of the user, null when no record in any of those tables has
ever been synced. -/
def specLastSyncAt (st : OfflineStore) (uid : String) : Option Nat :=
  match (userRecords st.projects uid ++ userRecords st.documents uid
      ++ userRecords st.standard_info uid).filterMap (fun r => r.last_sync_at) with
  | [] => none
  | x :: xs => some (xs.foldl max x)

/-- The concrete store refuting C6: the user has no documents but one
project synced at time 5. -/
def c6Store : OfflineStore :=
  { documents := []
    projects := [{ id := "p1", user_id := "u1", data := "proj", deleted_at := none,
                   sync_status := .synced, last_sync_at := some 5,
                   local_updated_at := 5 }]
    standard_info := []
    sync_queue := [] }

/-- C6 is refuted: with no documents but a project synced at time 5,
getSyncStats reports lastSyncAt = null although the most recent
last_sync_at across the pushed domain tables is 5. -/
theorem C6_counterexample :
    (getSyncStats c6Store "u1").lastSyncAt = none
    ∧ specLastSyncAt c6Store "u1" = some 5 := by decide

/-- An initial value never exceeds a max-fold over it. -/
theorem foldl_max_init_le (l : List Nat) (a : Nat) : a ≤ l.foldl max a := by
  induction l generalizing a with
  | nil => simp
  | cons x xs ih => exact le_trans (le_max_left a x) (ih (max a x))

/-- Every list element is bounded by a max-fold over the list. -/
theorem le_foldl_max_of_mem {l : List Nat} {x : Nat} (h : x ∈ l) (a : Nat) :
    x ≤ l.foldl max a := by
  induction l generalizing a with
  | nil => cases h
  | cons y ys ih =>
    rcases List.mem_cons.mp h with rfl | h'
    · exact le_trans (le_max_right a x) (foldl_max_init_le ys (max a x))
    · exact ih h' (max a y)

/-- A max-fold yields the initial value or a list element. -/
theorem foldl_max_eq_init_or_mem (l : List Nat) (a : Nat) :
    l.foldl max a = a ∨ l.foldl max a ∈ l := by
  induction l generalizing a with
  | nil => exact Or.inl rfl
  | cons x xs ih =>
    rcases ih (max a x) with h | h
    · rw [List.foldl_cons, h]
      rcases Nat.le_total a x with hax | hxa
      · exact Or.inr (by rw [max_eq_right hax]; exact List.mem_cons_self x xs)
      · exact Or.inl (by rw [max_eq_left hxa])
    · exact Or.inr (List.mem_cons_of_mem x h)

/-- Each record carries exactly one status, so the three per-status
counters partition the total. -/
theorem tableStats_partition (l : List OfflineRecord) :
    (tableStats l).total
      = (tableStats l).synced + (tableStats l).pending + (tableStats l).error := by
  simp only [tableStats]
  induction l with
  | nil => rfl
  | cons x xs ih =>
    cases hx : x.sync_status <;>
      simp [List.filter_cons, hx, ih] <;> omega

/-- C6 (amended): getSyncStats reports the per-table counters (which
partition each total) and the queue length, but its lastSyncAt comes from
the documents table alone: it is null exactly when the user has no
documents, otherwise the maximum over the user's documents of
last_sync_at with null read as epoch 0 (so a never-synced document yields
0, not null), and the projects / standard-info tables and the queue have
no influence on it. -/
theorem C6_last_sync_at_documents_only :
    (∀ (st : OfflineStore) (uid : String),
      userRecords st.documents uid = [] → (getSyncStats st uid).lastSyncAt = none)
    ∧ (∀ (st : OfflineStore) (uid : String),
      userRecords st.documents uid ≠ [] →
      ∃ t, (getSyncStats st uid).lastSyncAt = some t
        ∧ (∀ d ∈ userRecords st.documents uid, d.last_sync_at.getD 0 ≤ t)
        ∧ (∃ d ∈ userRecords st.documents uid, d.last_sync_at.getD 0 = t))
    ∧ (∀ (st : OfflineStore) (uid : String) (ps ss : List OfflineRecord)
        (q : List SyncQueueItem),
      (getSyncStats { st with projects := ps, standard_info := ss, sync_queue := q }
          uid).lastSyncAt
        = (getSyncStats st uid).lastSyncAt)
    ∧ (∀ l : List OfflineRecord,
      (tableStats l).total
        = (tableStats l).synced + (tableStats l).pending + (tableStats l).error) := by
  refine ⟨?_, ?_, ?_, tableStats_partition⟩
  · intro st uid h
    simp [getSyncStats, h]
  · intro st uid h
    refine ⟨(userRecords st.documents uid |>.map
      (fun d => d.last_sync_at.getD 0)).foldl max 0, ?_, ?_, ?_⟩
    · simp [getSyncStats, List.length_pos.mpr h]
    · intro d hd
      exact le_foldl_max_of_mem
        (List.mem_map_of_mem (fun d => d.last_sync_at.getD 0) hd) 0
    · obtain ⟨d₀, hd₀⟩ := List.exists_mem_of_ne_nil _ h
      rcases foldl_max_eq_init_or_mem
          ((userRecords st.documents uid).map (fun d => d.last_sync_at.getD 0)) 0 with
        hz | hmem
      · refine ⟨d₀, hd₀, ?_⟩
        have hle := le_foldl_max_of_mem
          (List.mem_map_of_mem (fun d => d.last_sync_at.getD 0) hd₀) 0
        rw [hz] at hle
        have hle2 : d₀.last_sync_at.getD 0 ≤ 0 := hle
        rw [hz]
        omega
      · obtain ⟨d, hd, hdeq⟩ := List.mem_map.mp hmem
        exact ⟨d, hd, hdeq⟩
  · intro st uid ps ss q
    rfl

/-- Closed witness for C6's amended theorem, at the refuting store. -/
theorem C6_last_sync_at_documents_only_witness :
    (getSyncStats c6Store "u1").lastSyncAt = none :=
  C6_last_sync_at_documents_only.1 c6Store "u1" (by decide)

/-- offlineService.addToSyncQueue (databaseService.ts lines 515-534):
build and append a queue entry with a fresh retry count and no error. -/
def addToSyncQueue (table : TableName) (operation : OpKind)
    (dataId dataUser : String) (now : Nat) : SyncQueueItem :=
  { id := table.str ++ "_" ++ dataId ++ "_" ++ toString now
    table := table
    operation := operation
    original_id := dataId
    user_id := dataUser
    created_at := now
    retry_count := 0
    last_error := none }

/-- offlineService.deleteDocument (databaseService.ts lines 715-724):
physically delete the row with the given id from the documents table,
then append a 'delete' entry to the sync queue. -/
def deleteDocument (st : LocalState) (userId documentId : String) (now : Nat) :
    LocalState :=
  { recs := st.recs.filter (fun r => ¬ r.id == documentId)
    queue := st.queue ++ [addToSyncQueue .documents .delete documentId userId now] }

/-- The concrete documents state refuting C9: a single live document. -/
def c9State : LocalState :=
  { recs := [{ id := "d1", user_id := "u1", data := "text", deleted_at := none,
               sync_status := .synced, last_sync_at := some 2, local_updated_at := 2 }]
    queue := [] }

/-- C9 is refuted: deleting the document removes it from local storage at
once — before any remote round-trip — instead of keeping a soft-deleted
row; only the queue entry records the intent. -/
theorem C9_counterexample :
    (deleteDocument c9State "u1" "d1" 7).recs = []
    ∧ (deleteDocument c9State "u1" "d1" 7).queue.map
        (fun q => (q.operation, q.original_id, q.retry_count)) = [(.delete, "d1", 0)] := by
  decide

/-- C9 (amended): deleting a document locally removes the row with that
id from the local store physically and immediately — no soft-delete
timestamp is written and no remote confirmation is awaited — while a
'delete' operation for the id is appended to the sync queue; rows with
other ids and prior queue entries are untouched. -/
theorem C9_delete_is_immediate_and_physical (st : LocalState)
    (userId documentId : String) (now : Nat) :
    (∀ r ∈ (deleteDocument st userId documentId now).recs, r.id ≠ documentId)
    ∧ (∀ r ∈ st.recs, r.id ≠ documentId →
        r ∈ (deleteDocument st userId documentId now).recs)
    ∧ (∃ q ∈ (deleteDocument st userId documentId now).queue,
        q.operation = .delete ∧ q.original_id = documentId ∧ q.user_id = userId)
    ∧ (∀ q ∈ st.queue, q ∈ (deleteDocument st userId documentId now).queue) := by
  refine ⟨?_, ?_, ?_, ?_⟩
  · intro r hr
    have := List.of_mem_filter hr
    simpa using this
  · intro r hr hne
    exact List.mem_filter.mpr ⟨hr, by simpa using hne⟩
  · exact ⟨addToSyncQueue .documents .delete documentId userId now,
      List.mem_append_right _ (List.mem_singleton_self _), rfl, rfl, rfl⟩
  · intro q hq
    exact List.mem_append_left _ hq

/-- Closed witness for C9's amended theorem at the concrete state. -/
theorem C9_delete_is_immediate_and_physical_witness :
    ∃ q ∈ (deleteDocument c9State "u1" "d1" 7).queue,
      q.operation = .delete ∧ q.original_id = "d1" ∧ q.user_id = "u1" :=
  (C9_delete_is_immediate_and_physical c9State "u1" "d1" 7).2.2.1

/-- A record as returned by the remote gateway's list endpoints
(getUserProjects / getUserDocuments / getUserStandardInfo in
databaseService.ts): a plain row without the local sync envelope, its
content fields abstracted into data. -/
structure ServerRecord where
  id : String
  user_id : String
  data : String
deriving DecidableEq, Repr

/-- The record written for each fetched row by syncFromServer
(useOfflineSync.ts lines 246-273): the spread of the server row with
sync_status 'synced' and refreshed last_sync_at / local_updated_at.  The
list endpoints exclude soft-deleted rows, so deleted_at is null. -/
def serverToLocal (sr : ServerRecord) (now : Nat) : OfflineRecord :=
  { id := sr.id
    user_id := sr.user_id
    data := sr.data
    deleted_at := none
    sync_status := .synced
    last_sync_at := some now
    local_updated_at := now }

/-- The per-table overwrite loop of syncFromServer (useOfflineSync.ts
lines 243-273): put each fetched record over the local table. -/
def syncFromServerTable (t : List OfflineRecord) (server : List ServerRecord)
    (now : Nat) : List OfflineRecord :=
  server.foldl (fun acc sr => putRec acc (serverToLocal sr now)) t

/-- An upsert leaves the record being put in the table. -/
theorem putRec_mem_self (t : List OfflineRecord) (r : OfflineRecord) :
    r ∈ putRec t r := by
  unfold putRec
  by_cases h : t.any (fun x => x.id == r.id) = true
  · rw [if_pos h]
    obtain ⟨x, hx, hxid⟩ := List.any_eq_true.mp h
    exact List.mem_map.mpr ⟨x, hx, by rw [if_pos hxid]⟩
  · rw [if_neg h]
    exact List.mem_append_right _ (List.mem_singleton_self _)

/-- An upsert leaves records with other ids untouched. -/
theorem putRec_mem_of_ne {t : List OfflineRecord} {x : OfflineRecord}
    (hx : x ∈ t) (r : OfflineRecord) (hne : x.id ≠ r.id) : x ∈ putRec t r := by
  unfold putRec
  by_cases h : t.any (fun y => y.id == r.id) = true
  · rw [if_pos h]
    exact List.mem_map.mpr ⟨x, hx, by rw [if_neg (by simpa using hne)]⟩
  · rw [if_neg h]
    exact List.mem_append_left _ hx

/-- An upsert never removes an id from the table. -/
theorem putRec_exists_id {t : List OfflineRecord} {x : OfflineRecord}
    (hx : x ∈ t) (r : OfflineRecord) : ∃ y ∈ putRec t r, y.id = x.id := by
  by_cases h : x.id = r.id
  · exact ⟨r, putRec_mem_self t r, h.symm⟩
  · exact ⟨x, putRec_mem_of_ne hx r h, rfl⟩

/-- The freshly-pulled envelope written by the pull phase. -/
def pulledEnv (now : Nat) (r : OfflineRecord) : Prop :=
  r.sync_status = .synced ∧ r.last_sync_at = some now ∧ r.local_updated_at = now

/-- Once some record with a given id carries the freshly-pulled envelope,
the rest of the pull loop keeps such a record present: later puts either
leave it alone or replace it by another freshly-pulled record. -/
theorem syncFromServerTable_keeps_pulled {t : List OfflineRecord}
    {srs : List ServerRecord} {now : Nat} {i : String}
    (h : ∃ r ∈ t, r.id = i ∧ pulledEnv now r) :
    ∃ r ∈ syncFromServerTable t srs now, r.id = i ∧ pulledEnv now r := by
  induction srs generalizing t with
  | nil => exact h
  | cons sr srs ih =>
    refine ih ?_
    obtain ⟨r, hr, hri, hre⟩ := h
    by_cases hid : i = sr.id
    · exact ⟨serverToLocal sr now, putRec_mem_self _ _, hid.symm, rfl, rfl, rfl⟩
    · exact ⟨r, putRec_mem_of_ne hr _ (by rw [hri]; exact hid), hri, hre⟩

/-- One step of the pull loop. -/
theorem syncFromServerTable_cons (t : List OfflineRecord) (sr : ServerRecord)
    (srs : List ServerRecord) (now : Nat) :
    syncFromServerTable t (sr :: srs) now
      = syncFromServerTable (putRec t (serverToLocal sr now)) srs now := rfl

/-- Every pulled record ends up present with the fresh envelope. -/
theorem syncFromServerTable_pulled_mem (server : List ServerRecord)
    (t : List OfflineRecord) (now : Nat) :
    ∀ sr ∈ server, ∃ r ∈ syncFromServerTable t server now,
      r.id = sr.id ∧ pulledEnv now r := by
  induction server generalizing t with
  | nil => intro sr hsr; cases hsr
  | cons sr' srs ih =>
    intro sr hsr
    rw [syncFromServerTable_cons]
    rcases List.mem_cons.mp hsr with rfl | hmem
    · exact syncFromServerTable_keeps_pulled
        ⟨serverToLocal sr now, putRec_mem_self _ _, rfl, rfl, rfl, rfl⟩
    · exact ih _ sr hmem

/-- Local records whose ids were not pulled are untouched. -/
theorem syncFromServerTable_frame (server : List ServerRecord)
    (t : List OfflineRecord) (now : Nat) :
    ∀ r ∈ t, r.id ∉ server.map ServerRecord.id →
      r ∈ syncFromServerTable t server now := by
  induction server generalizing t with
  | nil => intro r hr _; exact hr
  | cons sr srs ih =>
    intro r hr hnot
    rw [syncFromServerTable_cons]
    have hne : r.id ≠ sr.id := fun hc =>
      hnot (by rw [List.map_cons]; exact List.mem_cons.mpr (Or.inl hc))
    have hnot' : r.id ∉ srs.map ServerRecord.id := fun hc =>
      hnot (by rw [List.map_cons]; exact List.mem_cons.mpr (Or.inr hc))
    exact ih _ r (putRec_mem_of_ne hr _ hne) hnot'

/-- The pull loop never removes an id from the local table. -/
theorem syncFromServerTable_no_delete (server : List ServerRecord)
    (t : List OfflineRecord) (now : Nat) :
    ∀ r ∈ t, ∃ r' ∈ syncFromServerTable t server now, r'.id = r.id := by
  induction server generalizing t with
  | nil => intro r hr; exact ⟨r, hr, rfl⟩
  | cons sr srs ih =>
    intro r hr
    rw [syncFromServerTable_cons]
    obtain ⟨y, hy, hyid⟩ := putRec_exists_id hr (serverToLocal sr now)
    obtain ⟨r', hr', hr'id⟩ := ih _ y hy
    exact ⟨r', hr', hr'id.trans hyid⟩

/-- C4: after the pull phase of a sync cycle, every record returned by
the gateway is present locally with sync_status 'synced' and refreshed
last_sync_at / local_updated_at; every local record whose id was not
returned is left entirely unchanged by the phase; and the phase never
deletes an id from the local table. -/
theorem C4_pull_overwrites_and_preserves (t : List OfflineRecord)
    (server : List ServerRecord) (now : Nat) :
    (∀ sr ∈ server, ∃ r ∈ syncFromServerTable t server now,
      r.id = sr.id ∧ r.sync_status = .synced ∧ r.last_sync_at = some now
        ∧ r.local_updated_at = now)
    ∧ (∀ r ∈ t, r.id ∉ server.map ServerRecord.id →
        r ∈ syncFromServerTable t server now)
    ∧ (∀ r ∈ t, ∃ r' ∈ syncFromServerTable t server now, r'.id = r.id) := by
  refine ⟨?_, syncFromServerTable_frame server t now,
    syncFromServerTable_no_delete server t now⟩
  intro sr hsr
  obtain ⟨r, hr, hid, h1, h2, h3⟩ := syncFromServerTable_pulled_mem server t now sr hsr
  exact ⟨r, hr, hid, h1, h2, h3⟩

/-- Closed witness for C4 at a one-record table and a one-record pull:
the pulled copy is present and synced, and the unrelated local record is
untouched. -/
theorem C4_pull_overwrites_and_preserves_witness :
    ∃ r ∈ syncFromServerTable
        [{ id := "keep", user_id := "u1", data := "local", deleted_at := none,
           sync_status := .pending, last_sync_at := none, local_updated_at := 1 }]
        [{ id := "srv", user_id := "u1", data := "remote" }] 9,
      r.id = "srv" ∧ r.sync_status = .synced ∧ r.last_sync_at = some 9
        ∧ r.local_updated_at = 9 :=
  (C4_pull_overwrites_and_preserves _ _ 9).1
    { id := "srv", user_id := "u1", data := "remote" } (by decide)

/-- JS String.prototype.startsWith, evaluated over the character
sequence. -/
def strStartsWith (s pre : String) : Bool :=
  pre.toList.isPrefixOf s.toList

/-- Whether an id goes to the create branch of the push loops
(useOfflineSync.ts lines 93, 134, 176): the update branch requires a
truthy id that does not start with 'temp_'; an empty or placeholder id
goes to the create branch. -/
def isTempId (s : String) : Bool :=
  s == "" || strStartsWith s "temp_"

/-- A remote call issued during the push phase, identified by the
record's local id at the time of the call. -/
inductive RemoteCall where
  | update (id : String)
  | create (id : String)
deriving DecidableEq, Repr

/-- The remote gateway as one table's push loop consumes it: updateRecord
succeeds or throws a message, createRecord returns the server-assigned id
or throws (projectService / documentService / standardInfoService in
databaseService.ts). -/
structure Gateway where
  updateRecord : OfflineRecord → Except String Unit
  createRecord : OfflineRecord → Except String String

/-- One iteration of the push loop for projects or documents
(useOfflineSync.ts lines 91-126 and 132-168): a record with a
server-assigned id is updated remotely and then marked synced via
updateSyncStatus; a record with a placeholder id is created remotely and,
on success, moved to the server-assigned id and marked synced by a Dexie
update that changes the primary key (the subsequent updateSyncStatus call
still targets the old placeholder id, where it finds nothing); a thrown
gateway error marks the record 'error' and records the message on its
queue entries.  Also returns the remote call that was issued. -/
def pushRecord (gw : Gateway) (now : Nat) (st : LocalState) (r : OfflineRecord) :
    LocalState × RemoteCall :=
  if isTempId r.id = false then
    match gw.updateRecord r with
    | .ok _ => (updateSyncStatus st r.id .synced none now, .update r.id)
    | .error e => (updateSyncStatus st r.id .error (some e) now, .update r.id)
  else
    match gw.createRecord r with
    | .ok sid =>
      (updateSyncStatus
        (LocalState.mk
          (dexieUpdate st.recs r.id (fun x => { x with id := sid, sync_status := .synced }))
          st.queue)
        r.id .synced none now, .create r.id)
    | .error e => (updateSyncStatus st r.id .error (some e) now, .create r.id)

/-- The push loop over a snapshot list of pending records, returning the
final state and the remote calls issued in order. -/
def pushList (gw : Gateway) (now : Nat) :
    LocalState → List OfflineRecord → LocalState × List RemoteCall
  | st, [] => (st, [])
  | st, r :: rs =>
    let s1 := pushRecord gw now st r
    let s2 := pushList gw now s1.1 rs
    (s2.1, s1.2 :: s2.2)

/-- The selection of one table's push phase (useOfflineSync.ts lines
88-89, 129-130, 171-172): the user's records whose sync_status is
'pending' — and only those. -/
def selectPending (t : List OfflineRecord) (uid : String) : List OfflineRecord :=
  (userRecords t uid).filter (fun r => decide (r.sync_status = SyncStatus.pending))

/-- The push phase of syncData for the projects or documents table. -/
def pushTable (gw : Gateway) (uid : String) (now : Nat) (st : LocalState) :
    LocalState × List RemoteCall :=
  pushList gw now st (selectPending st.recs uid)

/-- One iteration of the push loop for standard_info (useOfflineSync.ts
lines 174-203): identical to pushRecord except that on a successful
create the server-assigned id is discarded — the local placeholder record
is merely marked 'synced' under its placeholder id. -/
def pushRecordStd (gw : Gateway) (now : Nat) (st : LocalState)
    (r : OfflineRecord) : LocalState × RemoteCall :=
  if isTempId r.id = false then
    match gw.updateRecord r with
    | .ok _ => (updateSyncStatus st r.id .synced none now, .update r.id)
    | .error e => (updateSyncStatus st r.id .error (some e) now, .update r.id)
  else
    match gw.createRecord r with
    | .ok _ => (updateSyncStatus st r.id .synced none now, .create r.id)
    | .error e => (updateSyncStatus st r.id .error (some e) now, .create r.id)

/-- The standard_info push loop. -/
def pushListStd (gw : Gateway) (now : Nat) :
    LocalState → List OfflineRecord → LocalState × List RemoteCall
  | st, [] => (st, [])
  | st, r :: rs =>
    let s1 := pushRecordStd gw now st r
    let s2 := pushListStd gw now s1.1 rs
    (s2.1, s1.2 :: s2.2)

/-- The push phase of syncData for the standard_info table. -/
def pushTableStd (gw : Gateway) (uid : String) (now : Nat) (st : LocalState) :
    LocalState × List RemoteCall :=
  pushListStd gw now st (selectPending st.recs uid)

/-- The locally created placeholder record of the C1 scenarios. -/
def c1Rec : OfflineRecord :=
  { id := "temp_abc", user_id := "u1", data := "Q1", deleted_at := none,
    sync_status := .pending, last_sync_at := none, local_updated_at := 1 }

/-- The concrete state refuting C1: one locally created standard_info
record with placeholder id, pending push. -/
def c1State : LocalState :=
  { recs := [c1Rec]
    queue := [] }

/-- The gateway used in the C1 refutation: every remote call succeeds and
a create assigns the server id srv_1. -/
def c1Gw : Gateway :=
  { updateRecord := fun _ => .ok ()
    createRecord := fun _ => .ok "srv_1" }

/-- C1 is refuted on the standard_info table: the remote create succeeds
(the create call for the placeholder is issued, as the trace shows), yet
afterwards the local store holds no record with the server-assigned id
srv_1 and the placeholder record remains, merely marked synced. -/
theorem C1_counterexample :
    (pushTableStd c1Gw "u1" 9 c1State).2 = [.create "temp_abc"]
    ∧ ((pushTableStd c1Gw "u1" 9 c1State).1.recs.filter
        (fun r => r.id == "srv_1")) = []
    ∧ ((pushTableStd c1Gw "u1" 9 c1State).1.recs.map
        (fun r => (r.id, r.sync_status))) = [("temp_abc", SyncStatus.synced)] := by
  decide

/-- The concrete state refuting C3: a single record of the user in
sync_status 'error'. -/
def c3State : LocalState :=
  { recs := [{ id := "d1", user_id := "u1", data := "body", deleted_at := none,
               sync_status := .error, last_sync_at := none, local_updated_at := 1 }]
    queue := [{ id := "documents_d1_0", table := .documents, operation := .update,
                original_id := "d1", user_id := "u1", created_at := 0,
                retry_count := 1, last_error := some "boom" }] }

/-- A fully successful gateway for the C3 refutation. -/
def c3Gw : Gateway :=
  { updateRecord := fun _ => .ok ()
    createRecord := fun _ => .ok "srv_9" }

/-- C3 is refuted: a record in sync_status 'error' at the start of the
cycle is not selected by the push phase, no remote call is issued for it,
and the whole push leaves the state untouched. -/
theorem C3_counterexample :
    selectPending c3State.recs "u1" = []
    ∧ (pushTable c3Gw "u1" 9 c3State).2 = []
    ∧ (pushTable c3Gw "u1" 9 c3State).1 = c3State := by decide

/-- A Dexie update never disturbs records with a different id. -/
theorem dexieUpdate_mem_of_ne {t : List OfflineRecord} {x : OfflineRecord}
    (hx : x ∈ t) (key : String) (f : OfflineRecord → OfflineRecord)
    (hne : x.id ≠ key) : x ∈ dexieUpdate t key f := by
  unfold dexieUpdate
  split
  · exact hx
  · split
    · exact List.mem_map.mpr ⟨x, hx, by rw [if_neg (by simpa using hne)]⟩
    · exact List.mem_append_left _ (List.mem_filter.mpr ⟨hx, by simpa using hne⟩)

/-- updateSyncStatus never disturbs records with a different id. -/
theorem updateSyncStatus_mem_of_ne {st : LocalState} {x : OfflineRecord}
    (hx : x ∈ st.recs) (id : String) (status : SyncStatus) (err : Option String)
    (now : Nat) (hne : x.id ≠ id) :
    x ∈ (updateSyncStatus st id status err now).recs :=
  dexieUpdate_mem_of_ne hx id _ hne

/-- One push iteration never disturbs records with a different id. -/
theorem pushRecord_mem_of_ne {st : LocalState} {x : OfflineRecord}
    (hx : x ∈ st.recs) (gw : Gateway) (now : Nat) (r : OfflineRecord)
    (hne : x.id ≠ r.id) : x ∈ (pushRecord gw now st r).1.recs := by
  unfold pushRecord
  by_cases ht : isTempId r.id = false
  · rw [if_pos ht]
    cases hu : gw.updateRecord r with
    | ok _ => exact updateSyncStatus_mem_of_ne hx _ _ _ _ hne
    | error e => exact updateSyncStatus_mem_of_ne hx _ _ _ _ hne
  · rw [if_neg ht]
    cases hc : gw.createRecord r with
    | ok sid =>
      have hx1 : x ∈ (LocalState.mk
          (dexieUpdate st.recs r.id
            (fun y : OfflineRecord => { y with id := sid, sync_status := SyncStatus.synced }))
          st.queue).recs :=
        dexieUpdate_mem_of_ne hx _ _ hne
      exact updateSyncStatus_mem_of_ne hx1 _ _ _ _ hne
    | error e => exact updateSyncStatus_mem_of_ne hx _ _ _ _ hne

/-- The push loop never disturbs records whose id is not in the processed
batch. -/
theorem pushList_mem_of_not_in_batch (gw : Gateway) (now : Nat)
    (rs : List OfflineRecord) (st : LocalState) {x : OfflineRecord}
    (hx : x ∈ st.recs) (hnot : x.id ∉ rs.map OfflineRecord.id) :
    x ∈ (pushList gw now st rs).1.recs := by
  induction rs generalizing st with
  | nil => exact hx
  | cons r rs ih =>
    have hne : x.id ≠ r.id := fun hc =>
      hnot (by rw [List.map_cons]; exact List.mem_cons.mpr (Or.inl hc))
    have hnot' : x.id ∉ rs.map OfflineRecord.id := fun hc =>
      hnot (by rw [List.map_cons]; exact List.mem_cons.mpr (Or.inr hc))
    exact ih _ (pushRecord_mem_of_ne hx gw now r hne) hnot'

/-- The remote call one push iteration issues, a function of the record
alone. -/
def remoteCallOf (r : OfflineRecord) : RemoteCall :=
  if isTempId r.id = false then .update r.id else .create r.id

/-- The push loop issues exactly one remote call per selected record, in
order, never aborting early. -/
theorem pushList_trace (gw : Gateway) (now : Nat) (rs : List OfflineRecord)
    (st : LocalState) : (pushList gw now st rs).2 = rs.map remoteCallOf := by
  induction rs generalizing st with
  | nil => rfl
  | cons r rs ih =>
    show (pushRecord gw now st r).2 :: (pushList gw now _ rs).2 = _
    rw [List.map_cons, ih]
    congr 1
    unfold pushRecord remoteCallOf
    by_cases ht : isTempId r.id = false
    · rw [if_pos ht, if_pos ht]
      cases gw.updateRecord r <;> rfl
    · rw [if_neg ht, if_neg ht]
      cases gw.createRecord r <;> rfl

/-- The local id of the remote call for a record. -/
def RemoteCall.callId : RemoteCall → String
  | .update i => i
  | .create i => i

/-- If the table's ids are distinct, a record holds its id alone. -/
theorem eq_of_mem_of_nodup_ids {l : List OfflineRecord} {x y : OfflineRecord}
    (hnd : (l.map OfflineRecord.id).Nodup) (hx : x ∈ l) (hy : y ∈ l)
    (hid : x.id = y.id) : x = y := by
  induction l with
  | nil => cases hx
  | cons a l ih =>
    rw [List.map_cons, List.nodup_cons] at hnd
    rcases List.mem_cons.mp hx with rfl | hx' <;>
      rcases List.mem_cons.mp hy with rfl | hy'
    · rfl
    · exact absurd (hid ▸ List.mem_map_of_mem OfflineRecord.id hy') hnd.1
    · exact absurd (hid ▸ List.mem_map_of_mem OfflineRecord.id hx') hnd.1
    · exact ih hnd.2 hx' hy'

/-- C3 (amended): the push phase selects only records in sync_status
'pending'; a record in 'error' at the start of the cycle is not selected,
no remote call is issued for its id, and the push phase leaves the record
itself untouched in the store.  (An error record is re-attempted only
after a local edit re-marks it pending; the pull phase may instead
overwrite it with the server copy.) -/
theorem C3_error_records_not_reattempted (gw : Gateway) (uid : String)
    (now : Nat) (st : LocalState) (r : OfflineRecord)
    (hnd : (st.recs.map OfflineRecord.id).Nodup) (hmem : r ∈ st.recs)
    (herr : r.sync_status = .error) :
    r ∉ selectPending st.recs uid
    ∧ r ∈ (pushTable gw uid now st).1.recs
    ∧ ∀ c ∈ (pushTable gw uid now st).2, c.callId ≠ r.id := by
  have hnotsel : ∀ x ∈ selectPending st.recs uid, x.id ≠ r.id := by
    intro x hx hxid
    have hx1 : x ∈ st.recs := List.mem_filter.mp (List.mem_filter.mp hx).1 |>.1
    have : x = r := eq_of_mem_of_nodup_ids hnd hx1 hmem hxid
    have hpend : x.sync_status = .pending := by
      have := (List.mem_filter.mp hx).2
      simpa using this
    rw [this, herr] at hpend
    cases hpend
  refine ⟨?_, ?_, ?_⟩
  · intro hsel
    exact hnotsel r hsel rfl
  · refine pushList_mem_of_not_in_batch gw now _ st hmem ?_
    intro hc
    obtain ⟨x, hx, hxid⟩ := List.mem_map.mp hc
    exact hnotsel x hx hxid
  · intro c hc
    rw [pushTable, pushList_trace] at hc
    obtain ⟨x, hx, hxc⟩ := List.mem_map.mp hc
    intro hcid
    refine hnotsel x hx ?_
    rw [← hcid, ← hxc]
    unfold remoteCallOf
    by_cases ht : isTempId x.id = false
    · rw [if_pos ht]; rfl
    · rw [if_neg ht]; rfl

/-- Closed witness for C3's amended theorem at the concrete error state:
the record is untouched by the push. -/
theorem C3_error_records_not_reattempted_witness :
    ({ id := "d1", user_id := "u1", data := "body", deleted_at := none,
       sync_status := .error, last_sync_at := none,
       local_updated_at := 1 } : OfflineRecord)
      ∈ (pushTable c3Gw "u1" 9 c3State).1.recs :=
  (C3_error_records_not_reattempted c3Gw "u1" 9 c3State _
    (by decide) (by decide) rfl).2.1

/-- The record one push iteration (with id swap) leaves in place of the
pushed record; proved below to characterize pushRecord. -/
def pushOutcome (gw : Gateway) (now : Nat) (r : OfflineRecord) : OfflineRecord :=
  if isTempId r.id = false then
    match gw.updateRecord r with
    | .ok _ => { r with sync_status := .synced, last_sync_at := some now }
    | .error _ => { r with sync_status := .error, last_sync_at := none }
  else
    match gw.createRecord r with
    | .ok sid => { r with id := sid, sync_status := .synced }
    | .error _ => { r with sync_status := .error, last_sync_at := none }

/-- The error message a record's push forwards to updateSyncStatus, if
any. -/
def pushErr (gw : Gateway) (r : OfflineRecord) : Option String :=
  if isTempId r.id = false then
    match gw.updateRecord r with
    | .ok _ => none
    | .error e => some e
  else
    match gw.createRecord r with
    | .ok _ => none
    | .error e => some e

/-- The effect of one push iteration on a single queue item. -/
def queueStep (gw : Gateway) (r : OfflineRecord) (q : SyncQueueItem) :
    SyncQueueItem :=
  match pushErr gw r with
  | some e =>
    if e = "" then q
    else if q.original_id == r.id then
      { q with last_error := some e, retry_count := q.retry_count + 1 }
    else q
  | none => q

/-- One push iteration's queue is the source queue put through
updateSyncStatus's queue effect with the branch's error message. -/
theorem pushRecord_queue (gw : Gateway) (now : Nat) (st : LocalState)
    (r : OfflineRecord) :
    (pushRecord gw now st r).1.queue
      = updateSyncStatusQueue st.queue r.id (pushErr gw r) := by
  unfold pushRecord pushErr
  by_cases ht : isTempId r.id = false
  · rw [if_pos ht, if_pos ht]
    cases gw.updateRecord r <;> rfl
  · rw [if_neg ht, if_neg ht]
    cases gw.createRecord r <;> rfl

/-- updateSyncStatus's queue effect is a per-item map. -/
theorem updateSyncStatusQueue_eq_map (Q : List SyncQueueItem) (id : String)
    (err : Option String) :
    updateSyncStatusQueue Q id err = Q.map (fun item =>
      match err with
      | some e =>
        if e = "" then item
        else if item.original_id == id then
          { item with last_error := some e, retry_count := item.retry_count + 1 }
        else item
      | none => item) := by
  cases err with
  | none => simp [updateSyncStatusQueue]
  | some e =>
    by_cases he : e = ""
    · simp [updateSyncStatusQueue, he]
    · simp [updateSyncStatusQueue, he]

/-- One push iteration maps queueStep over the queue. -/
theorem pushRecord_queue_map (gw : Gateway) (now : Nat) (st : LocalState)
    (r : OfflineRecord) :
    (pushRecord gw now st r).1.queue = st.queue.map (queueStep gw r) := by
  rw [pushRecord_queue, updateSyncStatusQueue_eq_map]
  rfl

/-- Unfolding one step of the push loop. -/
theorem pushList_cons (gw : Gateway) (now : Nat) (st : LocalState)
    (r : OfflineRecord) (rs : List OfflineRecord) :
    pushList gw now st (r :: rs)
      = ((pushList gw now (pushRecord gw now st r).1 rs).1,
         (pushRecord gw now st r).2
           :: (pushList gw now (pushRecord gw now st r).1 rs).2) := rfl

/-- The push loop's effect on the queue: each item is put through the
queueStep of every processed record, in order. -/
theorem pushList_queue (gw : Gateway) (now : Nat) (rs : List OfflineRecord)
    (st : LocalState) :
    (pushList gw now st rs).1.queue
      = st.queue.map (fun q => rs.foldl (fun acc r => queueStep gw r acc) q) := by
  induction rs generalizing st with
  | nil => simp [pushList]
  | cons r rs ih =>
    rw [pushList_cons]
    show (pushList gw now (pushRecord gw now st r).1 rs).1.queue = _
    rw [ih, pushRecord_queue_map, List.map_map]
    rfl

/-- With distinct ids, find? by a member's id returns that member. -/
theorem find?_eq_self_of_nodup {l : List OfflineRecord} {r : OfflineRecord}
    (hnd : (l.map OfflineRecord.id).Nodup) (hr : r ∈ l) :
    l.find? (fun x => x.id == r.id) = some r := by
  induction l with
  | nil => cases hr
  | cons a l ih =>
    rw [List.map_cons, List.nodup_cons] at hnd
    rcases List.mem_cons.mp hr with rfl | hmem
    · simp [List.find?]
    · have hane : (a.id == r.id) = false := by
        by_cases h : a.id = r.id
        · exact absurd (h ▸ List.mem_map_of_mem OfflineRecord.id hmem) hnd.1
        · simpa using h
      simp only [List.find?, hane]
      exact ih hnd.2 hmem

/-- Membership after a Dexie update that keeps the primary key: the old
records with other ids, plus the modified record. -/
theorem dexieUpdate_mem_iff_keep {t : List OfflineRecord} {key : String}
    {f : OfflineRecord → OfflineRecord} {r : OfflineRecord}
    (hfind : t.find? (fun x => x.id == key) = some r) (hkeep : (f r).id = key) :
    ∀ x, x ∈ dexieUpdate t key f ↔ (x ∈ t ∧ x.id ≠ key) ∨ x = f r := by
  intro x
  unfold dexieUpdate
  simp only [hfind]
  rw [if_pos (show ((f r).id == key) = true by simpa using hkeep)]
  constructor
  · intro hx
    obtain ⟨y, hy, hyx⟩ := List.mem_map.mp hx
    by_cases hyid : y.id = key
    · rw [if_pos (by simpa using hyid)] at hyx
      exact Or.inr hyx.symm
    · rw [if_neg (by simpa using hyid)] at hyx
      exact Or.inl ⟨hyx ▸ hy, hyx ▸ hyid⟩
  · rintro (⟨hx, hne⟩ | rfl)
    · exact List.mem_map.mpr ⟨x, hx, by rw [if_neg (by simpa using hne)]⟩
    · exact List.mem_map.mpr ⟨r, List.mem_of_find?_eq_some hfind,
        by rw [if_pos (List.find?_some hfind)]⟩

/-- Membership after a Dexie update that moves the primary key: the old
records with other ids, plus the moved record. -/
theorem dexieUpdate_mem_iff_move {t : List OfflineRecord} {key : String}
    {f : OfflineRecord → OfflineRecord} {r : OfflineRecord}
    (hfind : t.find? (fun x => x.id == key) = some r) (hmove : (f r).id ≠ key) :
    ∀ x, x ∈ dexieUpdate t key f ↔ (x ∈ t ∧ x.id ≠ key) ∨ x = f r := by
  intro x
  unfold dexieUpdate
  simp only [hfind]
  rw [if_neg (show ¬ ((f r).id == key) = true by simpa using hmove)]
  constructor
  · intro hx
    rcases List.mem_append.mp hx with h | h
    · obtain ⟨hxt, hbool⟩ := List.mem_filter.mp h
      exact Or.inl ⟨hxt, by simpa using hbool⟩
    · exact Or.inr (List.mem_singleton.mp h)
  · rintro (⟨hxt, hne⟩ | rfl)
    · exact List.mem_append_left _ (List.mem_filter.mpr ⟨hxt, by simpa using hne⟩)
    · exact List.mem_append_right _ (List.mem_singleton_self _)

/-- After a key-moving Dexie update, the old key is gone. -/
theorem find?_after_move {t : List OfflineRecord} {key : String}
    {f : OfflineRecord → OfflineRecord} {r : OfflineRecord}
    (hfind : t.find? (fun x => x.id == key) = some r) (hmove : (f r).id ≠ key) :
    (dexieUpdate t key f).find? (fun x => x.id == key) = none := by
  rw [List.find?_eq_none]
  intro x hx
  rcases (dexieUpdate_mem_iff_move hfind hmove x).mp hx with ⟨_, hne⟩ | rfl
  · simpa using hne
  · simpa using hmove

/-- updateSyncStatus's record effect is a no-op when the key is absent. -/
theorem updateSyncStatusRecs_noop {t : List OfflineRecord} {id : String}
    (status : SyncStatus) (now : Nat)
    (h : t.find? (fun x => x.id == id) = none) :
    updateSyncStatusRecs t id status now = t := by
  unfold updateSyncStatusRecs dexieUpdate
  simp only [h]

/-- Characterization of one push iteration's record effect: the records
with other ids survive untouched, and the pushed record is replaced by
its outcome.  Requires distinct table ids and, for a successful create, a
server id fresh for the table. -/
theorem pushRecord_recs_mem_iff (gw : Gateway) (now : Nat) (st : LocalState)
    (r : OfflineRecord) (hnd : (st.recs.map OfflineRecord.id).Nodup)
    (hr : r ∈ st.recs)
    (hfresh : isTempId r.id = true → ∀ sid, gw.createRecord r = .ok sid →
      sid ∉ st.recs.map OfflineRecord.id) :
    ∀ x, x ∈ (pushRecord gw now st r).1.recs ↔
      (x ∈ st.recs ∧ x.id ≠ r.id) ∨ x = pushOutcome gw now r := by
  intro x
  have hfind : st.recs.find? (fun y => y.id == r.id) = some r :=
    find?_eq_self_of_nodup hnd hr
  unfold pushRecord pushOutcome
  by_cases ht : isTempId r.id = false
  · rw [if_pos ht, if_pos ht]
    cases hu : gw.updateRecord r with
    | ok _ => exact dexieUpdate_mem_iff_keep hfind rfl x
    | error e => exact dexieUpdate_mem_iff_keep hfind rfl x
  · have ht' : isTempId r.id = true := by simpa using ht
    rw [if_neg ht, if_neg ht]
    cases hc : gw.createRecord r with
    | ok sid =>
      have hmove :
          ((fun y : OfflineRecord => { y with id := sid, sync_status := SyncStatus.synced }) r).id
            ≠ r.id := by
        show sid ≠ r.id
        intro hcontra
        exact hfresh ht' sid hc
          (hcontra ▸ List.mem_map_of_mem OfflineRecord.id hr)
      have hnoop := updateSyncStatusRecs_noop SyncStatus.synced now
        (@find?_after_move st.recs r.id
          (fun y : OfflineRecord => { y with id := sid, sync_status := SyncStatus.synced })
          r hfind hmove)
      have hiff := @dexieUpdate_mem_iff_move st.recs r.id
        (fun y : OfflineRecord => { y with id := sid, sync_status := SyncStatus.synced })
        r hfind hmove x
      rw [show (updateSyncStatus (LocalState.mk
          (dexieUpdate st.recs r.id
            (fun y : OfflineRecord => { y with id := sid, sync_status := SyncStatus.synced }))
          st.queue) r.id SyncStatus.synced none now).recs
        = updateSyncStatusRecs
            (dexieUpdate st.recs r.id
              (fun y : OfflineRecord => { y with id := sid, sync_status := SyncStatus.synced }))
            r.id SyncStatus.synced now from rfl, hnoop]
      exact hiff
    | error e => exact dexieUpdate_mem_iff_keep hfind rfl x

/-- A key-preserving Dexie update leaves the table's id sequence
unchanged. -/
theorem dexieUpdate_ids_keep {t : List OfflineRecord} {key : String}
    {f : OfflineRecord → OfflineRecord} {r : OfflineRecord}
    (hfind : t.find? (fun x => x.id == key) = some r) (hkeep : (f r).id = key) :
    (dexieUpdate t key f).map OfflineRecord.id = t.map OfflineRecord.id := by
  unfold dexieUpdate
  simp only [hfind]
  rw [if_pos (show ((f r).id == key) = true by simpa using hkeep)]
  rw [List.map_map]
  refine List.map_congr_left ?_
  intro y _
  by_cases hyid : y.id = key
  · simp only [Function.comp]
    rw [if_pos (by simpa using hyid), hkeep, hyid]
  · simp only [Function.comp]
    rw [if_neg (by simpa using hyid)]

/-- Same-id-sequence tables share distinctness of ids. -/
theorem nodup_of_ids_eq {t1 t2 : List OfflineRecord}
    (h : t1.map OfflineRecord.id = t2.map OfflineRecord.id)
    (hnd : (t2.map OfflineRecord.id).Nodup) :
    (t1.map OfflineRecord.id).Nodup := h ▸ hnd

/-- A key-moving Dexie update keeps the table's ids distinct when the new
key is fresh. -/
theorem dexieUpdate_ids_nodup_move {t : List OfflineRecord} {key : String}
    {f : OfflineRecord → OfflineRecord} {r : OfflineRecord}
    (hfind : t.find? (fun x => x.id == key) = some r) (hmove : (f r).id ≠ key)
    (hnd : (t.map OfflineRecord.id).Nodup)
    (hfr : (f r).id ∉ t.map OfflineRecord.id) :
    ((dexieUpdate t key f).map OfflineRecord.id).Nodup := by
  unfold dexieUpdate
  simp only [hfind]
  rw [if_neg (show ¬ ((f r).id == key) = true by simpa using hmove)]
  rw [List.map_append]
  refine List.Nodup.append ?_ (by simp) ?_
  · exact List.Nodup.sublist (List.Sublist.map _ (List.filter_sublist t)) hnd
  · intro i h1 h2
    rw [List.map_singleton, List.mem_singleton] at h2
    subst h2
    obtain ⟨y, hy, hyid⟩ := List.mem_map.mp h1
    exact hfr (hyid ▸ List.mem_map_of_mem OfflineRecord.id (List.mem_of_mem_filter hy))

/-- One push iteration keeps the table's ids distinct. -/
theorem pushRecord_ids_nodup (gw : Gateway) (now : Nat) (st : LocalState)
    (r : OfflineRecord) (hnd : (st.recs.map OfflineRecord.id).Nodup)
    (hr : r ∈ st.recs)
    (hfresh : isTempId r.id = true → ∀ sid, gw.createRecord r = .ok sid →
      sid ∉ st.recs.map OfflineRecord.id) :
    ((pushRecord gw now st r).1.recs.map OfflineRecord.id).Nodup := by
  have hfind : st.recs.find? (fun y => y.id == r.id) = some r :=
    find?_eq_self_of_nodup hnd hr
  unfold pushRecord
  by_cases ht : isTempId r.id = false
  · rw [if_pos ht]
    cases gw.updateRecord r with
    | ok _ => exact nodup_of_ids_eq (dexieUpdate_ids_keep hfind rfl) hnd
    | error e => exact nodup_of_ids_eq (dexieUpdate_ids_keep hfind rfl) hnd
  · have ht' : isTempId r.id = true := by simpa using ht
    rw [if_neg ht]
    cases hc : gw.createRecord r with
    | ok sid =>
      have hfr :
          ((fun y : OfflineRecord => { y with id := sid, sync_status := SyncStatus.synced }) r).id
            ∉ st.recs.map OfflineRecord.id := hfresh ht' sid hc
      have hmove :
          ((fun y : OfflineRecord => { y with id := sid, sync_status := SyncStatus.synced }) r).id
            ≠ r.id := by
        show sid ≠ r.id
        intro hcontra
        exact hfresh ht' sid hc
          (hcontra ▸ List.mem_map_of_mem OfflineRecord.id hr)
      have hnoop := updateSyncStatusRecs_noop SyncStatus.synced now
        (@find?_after_move st.recs r.id
          (fun y : OfflineRecord => { y with id := sid, sync_status := SyncStatus.synced })
          r hfind hmove)
      have hmain := @dexieUpdate_ids_nodup_move st.recs r.id
        (fun y : OfflineRecord => { y with id := sid, sync_status := SyncStatus.synced })
        r hfind hmove hnd hfr
      refine (show ((updateSyncStatusRecs
          (dexieUpdate st.recs r.id
            (fun y : OfflineRecord => { y with id := sid, sync_status := SyncStatus.synced }))
          r.id SyncStatus.synced now).map OfflineRecord.id).Nodup from ?_)
      rw [hnoop]
      exact hmain
    | error e => exact nodup_of_ids_eq (dexieUpdate_ids_keep hfind rfl) hnd

/-- The outcome's id: unchanged, except for a successful create, where it
is the server-assigned id. -/
theorem pushOutcome_id (gw : Gateway) (now : Nat) (r : OfflineRecord) :
    (pushOutcome gw now r).id = r.id
      ∨ (isTempId r.id = true
          ∧ gw.createRecord r = .ok (pushOutcome gw now r).id) := by
  unfold pushOutcome
  by_cases ht : isTempId r.id = false
  · rw [if_pos ht]
    cases gw.updateRecord r <;> exact Or.inl rfl
  · have ht' : isTempId r.id = true := by simpa using ht
    rw [if_neg ht]
    cases hc : gw.createRecord r with
    | ok sid => exact Or.inr ⟨ht', rfl⟩
    | error e => exact Or.inl rfl

/-- Ids after one push iteration: old ids, or a server id assigned by the
iteration's successful create. -/
theorem pushRecord_ids_subset (gw : Gateway) (now : Nat) (st : LocalState)
    (r : OfflineRecord) (hnd : (st.recs.map OfflineRecord.id).Nodup)
    (hr : r ∈ st.recs)
    (hfresh : isTempId r.id = true → ∀ sid, gw.createRecord r = .ok sid →
      sid ∉ st.recs.map OfflineRecord.id) :
    ∀ i ∈ (pushRecord gw now st r).1.recs.map OfflineRecord.id,
      i ∈ st.recs.map OfflineRecord.id
        ∨ (isTempId r.id = true ∧ gw.createRecord r = .ok i) := by
  intro i hi
  obtain ⟨x, hx, rfl⟩ := List.mem_map.mp hi
  rcases (pushRecord_recs_mem_iff gw now st r hnd hr hfresh x).mp hx with
    ⟨hxs, _⟩ | rfl
  · exact Or.inl (List.mem_map_of_mem _ hxs)
  · rcases pushOutcome_id gw now r with hid | ⟨htemp, hok⟩
    · exact Or.inl (hid ▸ List.mem_map_of_mem OfflineRecord.id hr)
    · exact Or.inr ⟨htemp, hok⟩

/-- Characterization of the push loop over a batch of snapshot records
with distinct ids taken from a table with distinct ids, all server ids
assigned by successful creates being fresh and pairwise distinct: the
final table consists of the untouched records whose ids are outside the
batch, together with the outcome of every batch record; ids stay
distinct. -/
theorem pushList_mem_char (gw : Gateway) (now : Nat) (rs : List OfflineRecord) :
    ∀ st : LocalState, (st.recs.map OfflineRecord.id).Nodup →
      (∀ r ∈ rs, r ∈ st.recs) → (rs.map OfflineRecord.id).Nodup →
      (∀ r ∈ rs, isTempId r.id = true → ∀ sid, gw.createRecord r = .ok sid →
        sid ∉ st.recs.map OfflineRecord.id
          ∧ ∀ r' ∈ rs, isTempId r'.id = true → gw.createRecord r' = .ok sid →
            r' = r) →
      (∀ x, x ∈ (pushList gw now st rs).1.recs ↔
        (x ∈ st.recs ∧ x.id ∉ rs.map OfflineRecord.id)
          ∨ ∃ r ∈ rs, x = pushOutcome gw now r)
      ∧ ((pushList gw now st rs).1.recs.map OfflineRecord.id).Nodup := by
  induction rs with
  | nil =>
    intro st hnd _ _ _
    refine ⟨fun x => ?_, hnd⟩
    simp [pushList]
  | cons r rs ih =>
    intro st hnd hsub hrsnd hfresh
    have hrmem : r ∈ st.recs := hsub r (List.mem_cons_self r rs)
    have hfreshr : isTempId r.id = true → ∀ sid, gw.createRecord r = .ok sid →
        sid ∉ st.recs.map OfflineRecord.id :=
      fun htemp sid hok => (hfresh r (List.mem_cons_self r rs) htemp sid hok).1
    have hstep := pushRecord_recs_mem_iff gw now st r hnd hrmem hfreshr
    have hnd1 := pushRecord_ids_nodup gw now st r hnd hrmem hfreshr
    have hsubset := pushRecord_ids_subset gw now st r hnd hrmem hfreshr
    rw [List.map_cons, List.nodup_cons] at hrsnd
    obtain ⟨hidnot, hrsnd2⟩ := hrsnd
    have hne_tail : ∀ r' ∈ rs, r'.id ≠ r.id := by
      intro r' hr' hcontra
      exact hidnot (hcontra ▸ List.mem_map_of_mem OfflineRecord.id hr')
    have hsub1 : ∀ r' ∈ rs, r' ∈ (pushRecord gw now st r).1.recs := fun r' hr' =>
      (hstep r').mpr (Or.inl ⟨hsub r' (List.mem_cons_of_mem r hr'), hne_tail r' hr'⟩)
    have hfresh1 : ∀ r' ∈ rs, isTempId r'.id = true →
        ∀ sid, gw.createRecord r' = .ok sid →
        sid ∉ (pushRecord gw now st r).1.recs.map OfflineRecord.id
          ∧ ∀ r'' ∈ rs, isTempId r''.id = true → gw.createRecord r'' = .ok sid →
            r'' = r' := by
      intro r' hr' htemp sid hok
      have horig := hfresh r' (List.mem_cons_of_mem r hr') htemp sid hok
      refine ⟨?_, fun r'' hr'' ht'' hok'' =>
        horig.2 r'' (List.mem_cons_of_mem r hr'') ht'' hok''⟩
      intro hmem1
      rcases hsubset sid hmem1 with hmem0 | ⟨htr, hokr⟩
      · exact horig.1 hmem0
      · have heq : r = r' := horig.2 r (List.mem_cons_self r rs) htr hokr
        exact hne_tail r' hr' (heq ▸ rfl)
    have ihres := ih (pushRecord gw now st r).1 hnd1 hsub1 hrsnd2 hfresh1
    rw [pushList_cons]
    refine ⟨fun x => ?_, ihres.2⟩
    show x ∈ (pushList gw now (pushRecord gw now st r).1 rs).1.recs ↔ _
    rw [ihres.1 x]
    constructor
    · rintro (⟨hx1, hxnot⟩ | ⟨r', hr', rfl⟩)
      · rcases (hstep x).mp hx1 with ⟨hxs, hxne⟩ | rfl
        · refine Or.inl ⟨hxs, ?_⟩
          rw [List.map_cons]
          intro hmem
          rcases List.mem_cons.mp hmem with h | h
          · exact hxne h
          · exact hxnot h
        · exact Or.inr ⟨r, List.mem_cons_self r rs, rfl⟩
      · exact Or.inr ⟨r', List.mem_cons_of_mem r hr', rfl⟩
    · rintro (⟨hx1, hxnot⟩ | ⟨r', hr'mem, rfl⟩)
      · rw [List.map_cons] at hxnot
        have hxner : x.id ≠ r.id := fun hc => hxnot (List.mem_cons.mpr (Or.inl hc))
        have hxnot2 : x.id ∉ rs.map OfflineRecord.id := fun hc =>
          hxnot (List.mem_cons.mpr (Or.inr hc))
        exact Or.inl ⟨(hstep x).mpr (Or.inl ⟨hx1, hxner⟩), hxnot2⟩
      · rcases List.mem_cons.mp hr'mem with rfl | hr'tail
        · refine Or.inl ⟨(hstep _).mpr (Or.inr rfl), ?_⟩
          rcases pushOutcome_id gw now r' with hid | ⟨htemp, hok⟩
          · rw [hid]
            exact hidnot
          · intro hc
            obtain ⟨y, hy, hyid⟩ := List.mem_map.mp hc
            have hyst : y ∈ st.recs := hsub y (List.mem_cons_of_mem _ hy)
            exact hfreshr htemp _ hok
              (hyid ▸ List.mem_map_of_mem OfflineRecord.id hyst)
        · exact Or.inr ⟨r', hr'tail, rfl⟩

/-- With distinct table ids, filtering by a member's id yields that
member alone. -/
theorem filter_eq_singleton_of_nodup {l : List OfflineRecord} {x : OfflineRecord}
    (hnd : (l.map OfflineRecord.id).Nodup) (hx : x ∈ l) :
    l.filter (fun y => y.id == x.id) = [x] := by
  induction l with
  | nil => cases hx
  | cons a l ih =>
    rw [List.map_cons, List.nodup_cons] at hnd
    rcases List.mem_cons.mp hx with rfl | hmem
    · rw [List.filter_cons_of_pos (by simp)]
      have hnil : l.filter (fun y => y.id == x.id) = [] := by
        rw [List.filter_eq_nil_iff]
        intro y hy
        simp only [beq_iff_eq]
        intro hcontra
        exact hnd.1 (hcontra ▸ List.mem_map_of_mem OfflineRecord.id hy)
      rw [hnil]
    · have hane : (a.id == x.id) = false := by
        by_cases h : a.id = x.id
        · exact absurd (h ▸ List.mem_map_of_mem OfflineRecord.id hmem) hnd.1
        · simpa using h
      simp only [List.filter, hane]
      exact ih hnd.2 hmem

/-- The push selection is a sub-sequence of the table. -/
theorem selectPending_sublist (t : List OfflineRecord) (uid : String) :
    List.Sublist (selectPending t uid) t :=
  (List.filter_sublist _).trans (List.filter_sublist _)

/-- Selected records come from the table. -/
theorem selectPending_mem (t : List OfflineRecord) (uid : String) :
    ∀ r ∈ selectPending t uid, r ∈ t :=
  fun _ hr => (selectPending_sublist t uid).subset hr

/-- The selection inherits distinctness of ids from the table. -/
theorem selectPending_ids_nodup (t : List OfflineRecord) (uid : String)
    (hnd : (t.map OfflineRecord.id).Nodup) :
    ((selectPending t uid).map OfflineRecord.id).Nodup :=
  List.Nodup.sublist (List.Sublist.map _ (selectPending_sublist t uid)) hnd

/-- A record whose push succeeds ends marked synced. -/
theorem pushOutcome_synced_of_ok {gw : Gateway} {r : OfflineRecord}
    (h : pushErr gw r = none) (now : Nat) :
    (pushOutcome gw now r).sync_status = .synced := by
  unfold pushOutcome
  unfold pushErr at h
  by_cases ht : isTempId r.id = false
  · rw [if_pos ht] at h ⊢
    cases hu : gw.updateRecord r with
    | ok _ => rfl
    | error e => rw [hu] at h; exact Option.noConfusion h
  · rw [if_neg ht] at h ⊢
    cases hc : gw.createRecord r with
    | ok _ => rfl
    | error e => rw [hc] at h; exact Option.noConfusion h

/-- A record whose push fails keeps its id and ends marked error. -/
theorem pushOutcome_error_shape {gw : Gateway} {r : OfflineRecord} {e : String}
    (h : pushErr gw r = some e) (now : Nat) :
    (pushOutcome gw now r).id = r.id
      ∧ (pushOutcome gw now r).sync_status = .error := by
  unfold pushOutcome
  unfold pushErr at h
  by_cases ht : isTempId r.id = false
  · rw [if_pos ht] at h ⊢
    cases hu : gw.updateRecord r with
    | ok _ => rw [hu] at h; exact Option.noConfusion h
    | error e2 => exact ⟨rfl, rfl⟩
  · rw [if_neg ht] at h ⊢
    cases hc : gw.createRecord r with
    | ok _ => rw [hc] at h; exact Option.noConfusion h
    | error e2 => exact ⟨rfl, rfl⟩

/-- A successful push touches no queue item. -/
theorem queueStep_of_none {gw : Gateway} {r : OfflineRecord}
    (h : pushErr gw r = none) (q : SyncQueueItem) : queueStep gw r q = q := by
  unfold queueStep
  rw [h]

/-- A run of successful pushes touches no queue item. -/
theorem foldl_queueStep_of_none {gw : Gateway} {l : List OfflineRecord}
    (h : ∀ r ∈ l, pushErr gw r = none) (q : SyncQueueItem) :
    l.foldl (fun acc r => queueStep gw r acc) q = q := by
  induction l generalizing q with
  | nil => rfl
  | cons r l ih =>
    rw [List.foldl_cons, queueStep_of_none (h r (List.mem_cons_self r l))]
    exact ih (fun r' hr' => h r' (List.mem_cons_of_mem r hr')) q

/-- In an id-distinct list split around a middle element, no other
element shares the middle element's id. -/
theorem nodup_mid_ne {as bs : List OfflineRecord} {rk : OfflineRecord}
    (hnd : ((as ++ rk :: bs).map OfflineRecord.id).Nodup) :
    (∀ r ∈ as, r.id ≠ rk.id) ∧ (∀ r ∈ bs, r.id ≠ rk.id) := by
  rw [List.map_append, List.map_cons, List.nodup_append] at hnd
  obtain ⟨h1, h2, hdisj⟩ := hnd
  rw [List.nodup_cons] at h2
  constructor
  · intro r hr hcontra
    exact hdisj (by rw [← hcontra]; exact List.mem_map_of_mem _ hr)
      (List.mem_cons_self _ _)
  · intro r hr hcontra
    exact h2.1 (by rw [← hcontra]; exact List.mem_map_of_mem _ hr)

/-- C1 (amended, projects and documents): for a selected placeholder
record whose remote create succeeds with a fresh server id, the push
phase leaves exactly one record carrying the server-assigned id — the
swapped record, marked synced — and no record with the placeholder id
remains.  (For standard_info the source discards the server id and the
placeholder remains; see the counterexample.) -/
theorem C1_swap_no_duplicate (gw : Gateway) (uid : String) (now : Nat)
    (st : LocalState) (rk : OfflineRecord) (sid : String)
    (hnd : (st.recs.map OfflineRecord.id).Nodup)
    (hk : rk ∈ selectPending st.recs uid)
    (htemp : isTempId rk.id = true)
    (hok : gw.createRecord rk = .ok sid)
    (hfresh : ∀ r ∈ selectPending st.recs uid, isTempId r.id = true →
      ∀ s, gw.createRecord r = .ok s → s ∉ st.recs.map OfflineRecord.id
        ∧ ∀ r' ∈ selectPending st.recs uid, isTempId r'.id = true →
          gw.createRecord r' = .ok s → r' = r) :
    (pushTable gw uid now st).1.recs.filter (fun x => x.id == sid)
        = [pushOutcome gw now rk]
    ∧ (pushOutcome gw now rk).id = sid
    ∧ (pushOutcome gw now rk).sync_status = .synced
    ∧ (pushTable gw uid now st).1.recs.filter (fun x => x.id == rk.id) = [] := by
  have hchar := pushList_mem_char gw now (selectPending st.recs uid) st hnd
    (selectPending_mem st.recs uid) (selectPending_ids_nodup st.recs uid hnd) hfresh
  have houtid : (pushOutcome gw now rk).id = sid := by
    unfold pushOutcome
    rw [if_neg (by simp [htemp]), hok]
  have houtsync : (pushOutcome gw now rk).sync_status = .synced := by
    unfold pushOutcome
    rw [if_neg (by simp [htemp]), hok]
  have hfreshk := hfresh rk hk htemp sid hok
  have hmem : pushOutcome gw now rk ∈ (pushTable gw uid now st).1.recs :=
    (hchar.1 _).mpr (Or.inr ⟨rk, hk, rfl⟩)
  refine ⟨?_, houtid, houtsync, ?_⟩
  · have hf := filter_eq_singleton_of_nodup hchar.2 hmem
    rw [houtid] at hf
    exact hf
  · rw [List.filter_eq_nil_iff]
    intro x hx
    simp only [beq_iff_eq]
    intro hxid
    rcases (hchar.1 x).mp hx with ⟨hxs, hxnot⟩ | ⟨r', hr', rfl⟩
    · exact hxnot (by rw [hxid]; exact List.mem_map_of_mem OfflineRecord.id hk)
    · rcases pushOutcome_id gw now r' with hid | ⟨ht', hok'⟩
      · have hr'id : r'.id = rk.id := by rw [← hid, hxid]
        have hr'eq : r' = rk := eq_of_mem_of_nodup_ids hnd
          (selectPending_mem st.recs uid r' hr')
          (selectPending_mem st.recs uid rk hk) hr'id
        subst hr'eq
        have hsid : sid = r'.id := houtid.symm.trans hid
        exact hfreshk.1
          (hsid ▸ List.mem_map_of_mem OfflineRecord.id
            (selectPending_mem st.recs uid r' hk))
      · exact (hfresh r' hr' ht' _ hok').1
          (hxid ▸ List.mem_map_of_mem OfflineRecord.id
            (selectPending_mem st.recs uid rk hk))

/-- Closed witness for C1's amended theorem: the concrete placeholder
project swaps to srv_1, synced, with the placeholder gone. -/
theorem C1_swap_no_duplicate_witness :
    (pushTable c1Gw "u1" 9 c1State).1.recs.filter (fun x => x.id == "srv_1")
        = [pushOutcome c1Gw 9 c1Rec]
    ∧ (pushOutcome c1Gw 9 c1Rec).id = "srv_1"
    ∧ (pushOutcome c1Gw 9 c1Rec).sync_status = .synced
    ∧ (pushTable c1Gw "u1" 9 c1State).1.recs.filter
        (fun x => x.id == c1Rec.id) = [] := by
  refine C1_swap_no_duplicate c1Gw "u1" 9 c1State c1Rec "srv_1"
    (by decide) (by decide) (by decide) rfl ?_
  intro r hr ht s hsok
  have hs : "srv_1" = s := by injection hsok
  subst hs
  have hsel : selectPending c1State.recs "u1" = [c1Rec] := by decide
  constructor
  · decide
  · intro r' hr' ht' hok'
    rw [hsel] at hr hr'
    have h1 : r = c1Rec := by simpa using hr
    have h2 : r' = c1Rec := by simpa using hr'
    rw [h1, h2]

/-- C2: when exactly one selected record's remote call fails (with a
non-empty message), every other selected record transitions to synced,
the failing record keeps its id and transitions to error, exactly its
queue entries get the message recorded and their retry count incremented
by exactly one (all other queue items unchanged), and the loop still
issues one remote call per selected record — the failure aborts
nothing. -/
theorem C2_partial_failure_isolated (gw : Gateway) (uid : String) (now : Nat)
    (st : LocalState) (rk : OfflineRecord) (e : String)
    (hnd : (st.recs.map OfflineRecord.id).Nodup)
    (hk : rk ∈ selectPending st.recs uid)
    (hfail : pushErr gw rk = some e) (hemsg : e ≠ "")
    (hok : ∀ r ∈ selectPending st.recs uid, r.id ≠ rk.id → pushErr gw r = none)
    (hfresh : ∀ r ∈ selectPending st.recs uid, isTempId r.id = true →
      ∀ s, gw.createRecord r = .ok s → s ∉ st.recs.map OfflineRecord.id
        ∧ ∀ r' ∈ selectPending st.recs uid, isTempId r'.id = true →
          gw.createRecord r' = .ok s → r' = r) :
    (∀ r ∈ selectPending st.recs uid, r.id ≠ rk.id →
      pushOutcome gw now r ∈ (pushTable gw uid now st).1.recs
        ∧ (pushOutcome gw now r).sync_status = .synced)
    ∧ (pushOutcome gw now rk ∈ (pushTable gw uid now st).1.recs
        ∧ (pushOutcome gw now rk).id = rk.id
        ∧ (pushOutcome gw now rk).sync_status = .error)
    ∧ ((pushTable gw uid now st).1.queue = st.queue.map (fun q =>
        if q.original_id == rk.id then
          { q with last_error := some e, retry_count := q.retry_count + 1 }
        else q))
    ∧ (pushTable gw uid now st).2
        = (selectPending st.recs uid).map remoteCallOf := by
  have hchar := pushList_mem_char gw now (selectPending st.recs uid) st hnd
    (selectPending_mem st.recs uid) (selectPending_ids_nodup st.recs uid hnd) hfresh
  refine ⟨?_, ?_, ?_, pushList_trace gw now _ st⟩
  · intro r hr hne
    exact ⟨(hchar.1 _).mpr (Or.inr ⟨r, hr, rfl⟩),
      pushOutcome_synced_of_ok (hok r hr hne) now⟩
  · obtain ⟨hid, hstatus⟩ := pushOutcome_error_shape hfail now
    exact ⟨(hchar.1 _).mpr (Or.inr ⟨rk, hk, rfl⟩), hid, hstatus⟩
  · obtain ⟨as, bs, hdecomp⟩ := List.append_of_mem hk
    have hselnd := selectPending_ids_nodup st.recs uid hnd
    rw [hdecomp] at hselnd
    obtain ⟨hasne, hbsne⟩ := nodup_mid_ne hselnd
    have hasnone : ∀ r ∈ as, pushErr gw r = none := by
      intro r hr
      refine hok r ?_ (hasne r hr)
      rw [hdecomp]
      exact List.mem_append_left _ hr
    have hbsnone : ∀ r ∈ bs, pushErr gw r = none := by
      intro r hr
      refine hok r ?_ (hbsne r hr)
      rw [hdecomp]
      exact List.mem_append_right _ (List.mem_cons_of_mem _ hr)
    show (pushList gw now st (selectPending st.recs uid)).1.queue = _
    rw [pushList_queue, hdecomp]
    refine List.map_congr_left ?_
    intro q _
    rw [List.foldl_append, List.foldl_cons, foldl_queueStep_of_none hasnone q]
    have hstep : queueStep gw rk q =
        if (q.original_id == rk.id) = true then
          { q with last_error := some e, retry_count := q.retry_count + 1 }
        else q := by
      unfold queueStep
      simp only [hfail]
      rw [if_neg hemsg]
    rw [hstep]
    by_cases hq : (q.original_id == rk.id) = true
    · rw [if_pos hq]
      exact foldl_queueStep_of_none hbsnone _
    · rw [if_neg hq]
      exact foldl_queueStep_of_none hbsnone q

/-- The two pending documents of the C2 scenario. -/
def c2r1 : OfflineRecord :=
  { id := "d1", user_id := "u1", data := "a", deleted_at := none,
    sync_status := .pending, last_sync_at := none, local_updated_at := 1 }

/-- The failing record of the C2 scenario. -/
def c2rk : OfflineRecord :=
  { id := "d2", user_id := "u1", data := "b", deleted_at := none,
    sync_status := .pending, last_sync_at := some 3, local_updated_at := 1 }

/-- The C2 scenario state: two pending documents, one queue entry for the
record that will fail. -/
def c2State : LocalState :=
  { recs := [c2r1, c2rk]
    queue := [{ id := "documents_d2_0", table := .documents, operation := .update,
                original_id := "d2", user_id := "u1", created_at := 0,
                retry_count := 0, last_error := none }] }

/-- The C2 gateway: the update of d2 throws, everything else succeeds. -/
def c2Gw : Gateway :=
  { updateRecord := fun rec => if rec.id == "d2" then .error "boom" else .ok ()
    createRecord := fun _ => .error "offline" }

/-- Closed witness for C2 at the concrete two-document scenario. -/
theorem C2_partial_failure_isolated_witness :
    (pushOutcome c2Gw 9 c2rk ∈ (pushTable c2Gw "u1" 9 c2State).1.recs
      ∧ (pushOutcome c2Gw 9 c2rk).id = c2rk.id
      ∧ (pushOutcome c2Gw 9 c2rk).sync_status = .error)
    ∧ (pushTable c2Gw "u1" 9 c2State).1.queue = c2State.queue.map (fun q =>
        if q.original_id == c2rk.id then
          { q with last_error := some "boom", retry_count := q.retry_count + 1 }
        else q) := by
  have hmain := C2_partial_failure_isolated c2Gw "u1" 9 c2State c2rk "boom"
    (by decide) (by decide) (by decide) (by decide) (by decide) ?_
  · exact ⟨hmain.2.1, hmain.2.2.1⟩
  · intro r hr ht s hsok
    exact absurd hsok (by intro hcontra; exact Except.noConfusion hcontra)

/-- A completion request (interface CompletionRequest in
completionService.ts).  temperature is a JS number; it is only carried,
never computed with, so it is modelled as a rational. -/
structure CompletionRequest where
  prompt : String
  context : Option String
  language : Option String
  maxTokens : Option Nat
  temperature : Option Rat
  stream : Option Bool
deriving DecidableEq, Repr

/-- JS String.prototype.trim, evaluated over the character sequence. -/
def jsTrim (s : String) : String :=
  String.mk (((s.toList.dropWhile Char.isWhitespace).reverse.dropWhile
    Char.isWhitespace).reverse)

/-- The four normalized fields generateCacheKey serializes
(completionService.ts lines 70-75): trimmed prompt, trimmed context,
language, maxTokens — temperature and stream are omitted. -/
structure KeyData where
  prompt : String
  context : Option String
  language : Option String
  maxTokens : Option Nat
deriving DecidableEq, Repr

/-- The keyData object built by generateCacheKey. -/
def keyData (request : CompletionRequest) : KeyData :=
  { prompt := jsTrim request.prompt
    context := request.context.map jsTrim
    language := request.language
    maxTokens := request.maxTokens }

/-- A lower-case hexadecimal digit. -/
def hexChar (n : Nat) : Char := "0123456789abcdef".toList.getD n '0'

/-- JSON.stringify's escaping of one string character. -/
def jsonEscapeChar (c : Char) : String :=
  if c = '"' then "\\\""
  else if c = '\\' then "\\\\"
  else if c = '\n' then "\\n"
  else if c = '\r' then "\\r"
  else if c = '\t' then "\\t"
  else if c.toNat = 8 then "\\b"
  else if c.toNat = 12 then "\\f"
  else if c.toNat < 32 then
    "\\u00" ++ String.mk [hexChar (c.toNat / 16), hexChar (c.toNat % 16)]
  else String.mk [c]

/-- A JSON string literal. -/
def jsonQuote (s : String) : String :=
  "\"" ++ String.join (s.toList.map jsonEscapeChar) ++ "\""

/-- JSON.stringify of the keyData object: fields in declaration order,
undefined fields omitted. -/
def jsonOfKeyData (k : KeyData) : String :=
  "\x7b\"prompt\":" ++ jsonQuote k.prompt
    ++ (match k.context with
        | some c => ",\"context\":" ++ jsonQuote c
        | none => "")
    ++ (match k.language with
        | some l => ",\"language\":" ++ jsonQuote l
        | none => "")
    ++ (match k.maxTokens with
        | some n => ",\"maxTokens\":" ++ toString n
        | none => "")
    ++ "\x7d"

/-- The base-64 alphabet. -/
def base64Char (n : Nat) : Char :=
  "ABCDEFGHIJKLMNOPQRSTUVWXYZabcdefghijklmnopqrstuvwxyz0123456789+/".toList.getD
    n 'A'

/-- Base-64 encoding of a byte sequence, three bytes at a time with
padding. -/
def btoaChunks : List Nat → List Char
  | [] => []
  | [a] => [base64Char (a / 4), base64Char (a % 4 * 16), '=', '=']
  | [a, b] =>
    [base64Char (a / 4), base64Char (a % 4 * 16 + b / 16),
     base64Char (b % 16 * 4), '=']
  | a :: b :: c :: rest =>
    base64Char (a / 4) :: base64Char (a % 4 * 16 + b / 16)
      :: base64Char (b % 16 * 4 + c / 64) :: base64Char (c % 64)
      :: btoaChunks rest

/-- window.btoa on a latin-1 string; the guard for its applicability (it
throws on code points above 255) is in generateCacheKey. -/
def btoa (s : String) : String :=
  String.mk (btoaChunks (s.toList.map Char.toNat))

/-- Wrap an integer to signed 32-bit, as JS bitwise operations do. -/
def toInt32 (x : Int) : Int := (x + 2 ^ 31) % 2 ^ 32 - 2 ^ 31

/-- One step of the fallback rolling hash: hash = ((hash << 5) - hash)
+ charCode, coerced back to int32 by hash & hash. -/
def jsHashStep (h : Int) (c : Nat) : Int := toInt32 (toInt32 (h * 32) - h + c)

/-- A base-36 digit. -/
def digit36 (n : Nat) : Char :=
  "0123456789abcdefghijklmnopqrstuvwxyz".toList.getD n '0'

/-- Nat.toString in base 36, as JS Number.prototype.toString(36) renders
a non-negative integer. -/
def toBase36 (n : Nat) : String :=
  if n < 36 then String.mk [digit36 n]
  else toBase36 (n / 36) ++ String.mk [digit36 (n % 36)]
termination_by n
decreasing_by exact Nat.div_lt_self (by omega) (by omega)

/-- The fallback rolling hash of generateCacheKey (completionService.ts
lines 80-87): Math.abs of the 32-bit rolling hash, rendered in
base 36. -/
def jsHash (s : String) : String :=
  toBase36 (s.toList.foldl (fun h c => jsHashStep h c.toNat) 0).natAbs

/-- The encoding step of generateCacheKey: btoa of the canonical JSON
when it is latin-1 (btoa throws otherwise), else the rolling hash. -/
def encodeKeyData (k : KeyData) : String :=
  let str := jsonOfKeyData k
  if str.toList.all (fun c => c.toNat ≤ 255) then btoa str else jsHash str

/-- CompletionService.generateCacheKey (completionService.ts lines
69-89). -/
def generateCacheKey (request : CompletionRequest) : String :=
  encodeKeyData (keyData request)

/-- The in-memory state of CompletionService: the response cache, the
pending-request and abort-controller maps, and — to make remote traffic
observable — a fresh-promise counter and the log of issued API requests.
A pending promise is identified by the Nat id assigned when its
makeAPIRequest was issued. -/
structure CompletionState where
  cache : List (String × CompletionCache)
  pendingRequests : List (String × Nat)
  abortControllers : List (String × Nat)
  nextId : Nat
  apiCalls : List (Nat × CompletionRequest)
deriving DecidableEq, Repr

/-- What a generateCompletion call hands back to its caller: an already
outstanding or freshly started promise, or a cached response. -/
inductive GenOutcome where
  | pending (pid : Nat)
  | cached (resp : CompletionResponse)
deriving DecidableEq, Repr

/-- CompletionService.generateCompletion (completionService.ts lines
153-186), up to the point where the call returns to its caller: an
outstanding request with the same derived key is returned as-is; next an
unexpired cache hit is returned; otherwise a new remote request is
issued, registered in the pending and abort maps under the derived key,
and returned.  Promise resolution happens after this synchronous
window. -/
def generateCompletion (st : CompletionState) (request : CompletionRequest)
    (now : Nat) : GenOutcome × CompletionState :=
  let cacheKey := generateCacheKey request
  match mapGet st.pendingRequests cacheKey with
  | some pid => (.pending pid, st)
  | none =>
    match getCachedCompletion st.cache cacheKey now with
    | some resp => (.cached resp, st)
    | none =>
      (.pending st.nextId,
        { st with
          abortControllers := st.abortControllers ++ [(cacheKey, st.nextId)]
          pendingRequests := st.pendingRequests ++ [(cacheKey, st.nextId)]
          apiCalls := st.apiCalls ++ [(st.nextId, request)]
          nextId := st.nextId + 1 })

/-- A call whose derived key is already outstanding returns that same
pending promise and changes nothing. -/
theorem generateCompletion_pending_hit (st : CompletionState)
    (request : CompletionRequest) (now : Nat) (pid : Nat)
    (h : mapGet st.pendingRequests (generateCacheKey request) = some pid) :
    generateCompletion st request now = (.pending pid, st) := by
  unfold generateCompletion
  simp only [h]

/-- find? skips a prefix in which nothing matches. -/
theorem find?_append_none {α : Type} {p : α → Bool} {l₁ l₂ : List α}
    (h : l₁.find? p = none) : (l₁ ++ l₂).find? p = l₂.find? p := by
  induction l₁ with
  | nil => rfl
  | cons a l ih =>
    have hpa : p a = false := by
      have := List.find?_eq_none.mp h a (List.mem_cons_self _ _)
      simpa using this
    have hl : l.find? p = none :=
      List.find?_eq_none.mpr (fun x hx =>
        List.find?_eq_none.mp h x (List.mem_cons_of_mem _ hx))
    rw [List.cons_append]
    simp only [List.find?, hpa]
    exact ih hl

/-- Appending a binding for an absent key makes it found. -/
theorem mapGet_append_new {α : Type} (l : List (String × α)) (k : String)
    (v : α) (h : mapGet l k = none) : mapGet (l ++ [(k, v)]) k = some v := by
  unfold mapGet at h ⊢
  have hnone : l.find? (fun p => p.1 == k) = none := by
    cases hf : l.find? (fun p => p.1 == k) with
    | none => rfl
    | some x => rw [hf] at h; exact Option.noConfusion h
  rw [find?_append_none hnone]
  simp [List.find?]

/-- C8: a generateCompletion call whose derived key already has an
outstanding request returns that same pending result with no state
change; hence two identical requests issued before the first resolves
yield the same pending result, and exactly one remote call is logged
between them. -/
theorem C8_inflight_requests_coalesced :
    (∀ (st : CompletionState) (request : CompletionRequest) (now pid : Nat),
      mapGet st.pendingRequests (generateCacheKey request) = some pid →
      generateCompletion st request now = (.pending pid, st))
    ∧ (∀ (st : CompletionState) (request : CompletionRequest) (now : Nat),
      mapGet st.pendingRequests (generateCacheKey request) = none →
      getCachedCompletion st.cache (generateCacheKey request) now = none →
      (generateCompletion st request now).1 = .pending st.nextId
        ∧ generateCompletion (generateCompletion st request now).2 request now
            = ((generateCompletion st request now).1,
               (generateCompletion st request now).2)
        ∧ (generateCompletion st request now).2.apiCalls
            = st.apiCalls ++ [(st.nextId, request)]) := by
  refine ⟨generateCompletion_pending_hit, ?_⟩
  intro st request now h1 h2
  have hfirst : generateCompletion st request now
      = (.pending st.nextId,
         { st with
           abortControllers :=
             st.abortControllers ++ [(generateCacheKey request, st.nextId)]
           pendingRequests :=
             st.pendingRequests ++ [(generateCacheKey request, st.nextId)]
           apiCalls := st.apiCalls ++ [(st.nextId, request)]
           nextId := st.nextId + 1 }) := by
    unfold generateCompletion
    simp only [h1, h2]
  have hpend := mapGet_append_new st.pendingRequests (generateCacheKey request)
    st.nextId h1
  refine ⟨by rw [hfirst], ?_, by rw [hfirst]⟩
  rw [hfirst]
  exact generateCompletion_pending_hit _ request now st.nextId hpend

/-- The request of the C8 witness scenario. -/
def c8Req : CompletionRequest :=
  { prompt := "hello", context := none, language := some "en",
    maxTokens := some 100, temperature := none, stream := none }

/-- The empty completion-service state. -/
def c8State : CompletionState :=
  { cache := [], pendingRequests := [], abortControllers := [],
    nextId := 0, apiCalls := [] }

/-- Closed witness for C8: from the empty state, the first call starts
promise 0 and the second call, issued before resolution, joins it with
no further API call. -/
theorem C8_inflight_requests_coalesced_witness :
    (generateCompletion c8State c8Req 5).1 = .pending c8State.nextId
    ∧ generateCompletion (generateCompletion c8State c8Req 5).2 c8Req 5
        = ((generateCompletion c8State c8Req 5).1,
           (generateCompletion c8State c8Req 5).2)
    ∧ (generateCompletion c8State c8Req 5).2.apiCalls
        = c8State.apiCalls ++ [(c8State.nextId, c8Req)] :=
  C8_inflight_requests_coalesced.2 c8State c8Req 5 rfl rfl

/-- C10: the derived cache key depends only on the trimmed prompt, the
trimmed context, the language, and maxTokens — in particular two requests
differing only in temperature or stream share a key, so the second is
served the first request's outstanding result instead of triggering a
second remote call. -/
theorem C10_key_ignores_temperature_and_stream :
    (∀ r1 r2 : CompletionRequest,
      jsTrim r1.prompt = jsTrim r2.prompt →
      r1.context.map jsTrim = r2.context.map jsTrim →
      r1.language = r2.language → r1.maxTokens = r2.maxTokens →
      generateCacheKey r1 = generateCacheKey r2)
    ∧ (∀ (r : CompletionRequest) (t : Option Rat) (s : Option Bool),
      generateCacheKey { r with temperature := t, stream := s }
        = generateCacheKey r)
    ∧ (∀ (st : CompletionState) (r1 r2 : CompletionRequest) (now pid : Nat),
      jsTrim r1.prompt = jsTrim r2.prompt →
      r1.context.map jsTrim = r2.context.map jsTrim →
      r1.language = r2.language → r1.maxTokens = r2.maxTokens →
      mapGet st.pendingRequests (generateCacheKey r1) = some pid →
      generateCompletion st r2 now = (.pending pid, st)) := by
  have hkey : ∀ r1 r2 : CompletionRequest,
      jsTrim r1.prompt = jsTrim r2.prompt →
      r1.context.map jsTrim = r2.context.map jsTrim →
      r1.language = r2.language → r1.maxTokens = r2.maxTokens →
      generateCacheKey r1 = generateCacheKey r2 := by
    intro r1 r2 h1 h2 h3 h4
    unfold generateCacheKey
    have hk : keyData r1 = keyData r2 := by
      unfold keyData
      rw [h1, h2, h3, h4]
    rw [hk]
  refine ⟨hkey, fun r t s => hkey _ r rfl rfl rfl rfl, ?_⟩
  intro st r1 r2 now pid h1 h2 h3 h4 hpend
  refine generateCompletion_pending_hit st r2 now pid ?_
  rw [← hkey r1 r2 h1 h2 h3 h4]
  exact hpend

/-- Closed witness for C10: the key of a request with temperature and
stream set equals the key of the same request without them. -/
theorem C10_key_ignores_temperature_and_stream_witness :
    generateCacheKey
      { prompt := "p", context := some "c", language := some "en",
        maxTokens := some 64, temperature := some (7 : Rat),
        stream := some true }
    = generateCacheKey
      { prompt := "p", context := some "c", language := some "en",
        maxTokens := some 64, temperature := none, stream := none } :=
  C10_key_ignores_temperature_and_stream.1 _ _ rfl rfl rfl rfl

end CopyTab
